import Mathlib

/-
Verification development for the Current repository (mzhurovich/Current).

Shallow embeddings, translated from the C++ sources:
- `GroupByLines`   : src/bricks/strings/group_by_lines.h (`GenericStatefulGroupByLines`)
- `JsonMap`        : src/TypeSystem/Serialization/json/map.h (std::map JSON (de)serialization)
- `Sherlock`       : src/Sherlock/sherlock.h (publisher handle transfer, facade publish)
- `SubscriberLoop` : src/Sherlock/sherlock.h (`SubscriberThreadInstance::ThreadImpl`)
- `Http`           : src/Sherlock/sherlock.h (`StreamImpl::ServeDataViaHTTP`)
-/

namespace GroupByLines

/-- One logical line: the character sequence passed to the callback `f_`. -/
abbrev Line := List Char

/-- The state of a `GenericStatefulGroupByLines` instance: the accumulated `residual_`
string and the sequence of callback invocations made so far (each invocation records
the line it was passed, in order). -/
structure GBL where
  residual : List Char
  out : List Line
deriving DecidableEq

/-- A fresh instance: empty residual, no callbacks fired yet. -/
def gblInit : GBL := ⟨[], []⟩

/-- `GenericStatefulGroupByLines::Feed(const char* s)` (group_by_lines.h, lines 45-60):
scan characters, appending each non-newline character to `residual_`; upon a newline,
fire the callback with the residual and clear it. The scan stops at a NUL character,
because the input is consumed as a C string (`while (*s && *s != '\n')`); the
`Feed(const std::string&)` overload forwards to this one via `c_str()`. -/
def feed : GBL → List Char → GBL
  | st, [] => st
  | st, c :: rest =>
    if c = Char.ofNat 0 then st
    else if c = '\n' then feed ⟨[], st.out ++ [st.residual]⟩ rest
    else feed ⟨st.residual ++ [c], st.out⟩ rest

/-- The destructor (lines 61-66): one final callback with the residual iff non-empty.
Returns the full sequence of callback invocations over the instance lifetime. -/
def finish (st : GBL) : List Line :=
  if st.residual = [] then st.out else st.out ++ [st.residual]

/-- Feeding a sequence of chunks, one `Feed` call per chunk. -/
def feedChunks (st : GBL) (chunks : List (List Char)) : GBL :=
  chunks.foldl feed st

/-- Split characters into the list of complete (newline-terminated) lines and the
trailing residual, starting from an already-accumulated current line `cur`. -/
def splitLinesAux (cur : Line) : List Char → List Line × Line
  | [] => ([], cur)
  | c :: rest =>
    if c = '\n' then
      let p := splitLinesAux [] rest
      (cur :: p.1, p.2)
    else splitLinesAux (cur ++ [c]) rest

/-- The complete lines of `s` and its trailing residual. -/
def lineDecomposition (s : List Char) : List Line × Line := splitLinesAux [] s

/-- The callback sequence the claim describes: one callback per newline in `s` with
the text since the previous newline (newline excluded), plus one final callback with
the trailing incomplete line iff that residual is non-empty. -/
def expectedCalls (s : List Char) : List Line :=
  (lineDecomposition s).1 ++
    (if (lineDecomposition s).2 = [] then [] else [(lineDecomposition s).2])

theorem feed_append (a b : List Char) (st : GBL) (h : Char.ofNat 0 ∉ a) :
    feed st (a ++ b) = feed (feed st a) b := by
  induction a generalizing st with
  | nil => simp [feed]
  | cons c rest ih =>
    simp only [List.mem_cons, not_or] at h
    have hc0 : ¬(c = Char.ofNat 0) := fun hh => h.1 hh.symm
    by_cases hc : c = '\n'
    · simp only [List.cons_append, feed, if_neg hc0, if_pos hc]
      exact ih _ h.2
    · simp only [List.cons_append, feed, if_neg hc0, if_neg hc]
      exact ih _ h.2

theorem feed_eq_splitLines (s : List Char) (h : Char.ofNat 0 ∉ s)
    (res : List Char) (out : List Line) :
    feed ⟨res, out⟩ s = ⟨(splitLinesAux res s).2, out ++ (splitLinesAux res s).1⟩ := by
  induction s generalizing res out with
  | nil => simp [feed, splitLinesAux]
  | cons c rest ih =>
    simp only [List.mem_cons, not_or] at h
    have hc0 : ¬(c = Char.ofNat 0) := fun hh => h.1 hh.symm
    by_cases hc : c = '\n'
    · simp only [feed, splitLinesAux, if_neg hc0, if_pos hc]
      rw [ih h.2]
      simp
    · simp only [feed, splitLinesAux, if_neg hc0, if_neg hc]
      exact ih h.2 _ _

theorem feedChunks_eq_feed_join (chunks : List (List Char))
    (h : ∀ c ∈ chunks, Char.ofNat 0 ∉ c) (st : GBL) :
    feedChunks st chunks = feed st chunks.flatten := by
  induction chunks generalizing st with
  | nil => simp [feedChunks, feed]
  | cons c rest ih =>
    simp only [feedChunks, List.foldl_cons, List.flatten_cons]
    rw [feed_append c rest.flatten st (h c (List.mem_cons_self c rest))]
    exact ih (fun x hx => h x (List.mem_cons_of_mem c hx)) (feed st c)

theorem splitLinesAux_length (s : List Char) (cur : Line) :
    (splitLinesAux cur s).1.length = s.count '\n' := by
  induction s generalizing cur with
  | nil => simp [splitLinesAux]
  | cons c rest ih =>
    by_cases hc : c = '\n'
    · subst hc
      rw [List.count_cons_self]
      simp [splitLinesAux, ih]
    · simp only [splitLinesAux, if_neg hc, ih]
      rw [List.count_cons_of_ne (fun hh => hc hh.symm)]

/-- Claim C9, counterexample to the claim as stated: for a string containing a NUL
character, feeding it in chunks and feeding it whole produce different callback
sequences, because `Feed` consumes its argument as a C string and stops at the NUL
of each individual chunk. -/
theorem C9_counterexample :
    List.flatten [['a', Char.ofNat 0], ['b']] = ['a', Char.ofNat 0, 'b']
    ∧ finish (feedChunks gblInit [['a', Char.ofNat 0], ['b']]) = [['a', 'b']]
    ∧ finish (feed gblInit ['a', Char.ofNat 0, 'b']) = [['a']]
    ∧ finish (feedChunks gblInit [['a', Char.ofNat 0], ['b']]) ≠
        finish (feed gblInit ['a', Char.ofNat 0, 'b']) := by
  decide

/-- Claim C9 (amended: the string must contain no NUL character): for every NUL-free
string `s` and every partition of `s` into consecutive chunks, feeding the chunks one
at a time and then destroying the instance fires the callback with exactly the same
lines as feeding `s` in one call; that common sequence is one callback per newline in
`s` with the text since the previous newline, plus a final callback with the trailing
incomplete line iff it is non-empty; and the number of complete-line callbacks equals
the number of newlines in `s`. -/
theorem C9_group_by_lines (s : List Char) (chunks : List (List Char))
    (hjoin : chunks.flatten = s) (hnul : Char.ofNat 0 ∉ s) :
    finish (feedChunks gblInit chunks) = finish (feed gblInit s)
    ∧ finish (feed gblInit s) = expectedCalls s
    ∧ (lineDecomposition s).1.length = s.count '\n' := by
  have hchunks : ∀ c ∈ chunks, Char.ofNat 0 ∉ c := by
    intro c hc hmem
    exact hnul (hjoin ▸ List.mem_flatten.mpr ⟨c, hc, hmem⟩)
  have h1 : feedChunks gblInit chunks = feed gblInit s := by
    rw [feedChunks_eq_feed_join chunks hchunks, hjoin]
  have h2 : feed gblInit s = ⟨(splitLinesAux [] s).2, [] ++ (splitLinesAux [] s).1⟩ :=
    feed_eq_splitLines s hnul [] []
  refine ⟨by rw [h1], ?_, splitLinesAux_length s []⟩
  rw [h2]
  simp only [finish, expectedCalls, lineDecomposition, List.nil_append]
  by_cases hres : (splitLinesAux [] s).2 = []
  · simp [hres]
  · simp [hres]

/-- Witness for `C9_group_by_lines` at a concrete input. -/
theorem C9_group_by_lines_witness :
    finish (feedChunks gblInit [['a'], ['\n', 'b']]) =
      finish (feed gblInit ['a', '\n', 'b']) :=
  (C9_group_by_lines ['a', '\n', 'b'] [['a'], ['\n', 'b']] (by decide) (by decide)).1

end GroupByLines

namespace JsonMap

/-- A JSON value (the subset of the rapidjson document model that the map
(de)serializers in src/TypeSystem/Serialization/json/map.h inspect). -/
inductive JValue where
  | null : JValue
  | boolean : Bool → JValue
  | num : Int → JValue
  | str : String → JValue
  | arr : List JValue → JValue
  | obj : List (String × JValue) → JValue

/-- The error raised by the map loaders: `JSONSchemaException(expected, source, path)`;
only the `expected` message distinguishes the throw sites. -/
inductive JErr where
  | schemaException : String → JErr
deriving DecidableEq

/-- `SerializeImpl<JSONStringifier, std::map<TK, TV>>::DoSerialize` (map.h, lines
39-56), for a non-`std::string` key type: the map becomes a JSON array of two-element
`[key, value]` arrays, in map (key) order. The map is represented as its in-order
key/value list. -/
def serializeMap {κ ν : Type} (serK : κ → JValue) (serV : ν → JValue)
    (m : List (κ × ν)) : JValue :=
  JValue.arr (m.map fun kv => JValue.arr [serK kv.1, serV kv.2])

/-- `SerializeImpl<JSONStringifier, std::map<std::string, TV>>::DoSerialize` (map.h,
lines 58-70): the map becomes a JSON object keyed by the map keys, in map order. -/
def serializeStringMap {ν : Type} (serV : ν → JValue) (m : List (String × ν)) : JValue :=
  JValue.obj (m.map fun kv => (kv.1, serV kv.2))

/-- `std::map::emplace`: insert at the ordered position; if the key is already
present, keep the existing value. The map is a strictly-sorted association list. -/
def mapEmplace {κ ν : Type} [LinearOrder κ] : List (κ × ν) → κ → ν → List (κ × ν)
  | [], k, v => [(k, v)]
  | (k0, v0) :: rest, k, v =>
    if k < k0 then (k, v) :: (k0, v0) :: rest
    else if k0 < k then (k0, v0) :: mapEmplace rest k v
    else (k0, v0) :: rest

/-- The element loop of `LoadFromJSONImpl<std::map<TK, TV>>::Load` for non-string keys
(map.h, lines 99-113): each source element must be an array (`JSONSchemaException
"map entry as array"` otherwise) of exactly two elements (`... "map entry as array of
two elements"` otherwise); its two components are loaded as key and value, in that
order, and emplaced into the destination. -/
def loadMapEntries {κ ν : Type} [LinearOrder κ]
    (loadK : JValue → Except JErr κ) (loadV : JValue → Except JErr ν) :
    List JValue → List (κ × ν) → Except JErr (List (κ × ν))
  | [], acc => Except.ok acc
  | el :: rest, acc =>
    match el with
    | JValue.arr [jk, jv] =>
      match loadK jk with
      | Except.ok k =>
        match loadV jv with
        | Except.ok v => loadMapEntries loadK loadV rest (mapEmplace acc k v)
        | Except.error e => Except.error e
      | Except.error e => Except.error e
    | JValue.arr _ => Except.error (JErr.schemaException "map entry as array of two elements")
    | _ => Except.error (JErr.schemaException "map entry as array")

/-- `LoadFromJSONImpl<std::map<TK, TV>>::Load` for a non-string key type (map.h,
lines 95-117). `source` is `none` when the JSON node is absent; `patch` is
`JSONPatchMode<J>::value`. On an array source the destination is cleared and the
elements are loaded; on a present non-array source, or an absent source outside patch
mode, a `JSONSchemaException` is thrown; an absent source in patch mode is a no-op. -/
def loadMap {κ ν : Type} [LinearOrder κ] (patch : Bool)
    (loadK : JValue → Except JErr κ) (loadV : JValue → Except JErr ν)
    (source : Option JValue) (dest : List (κ × ν)) : Except JErr (List (κ × ν)) :=
  match source with
  | some (JValue.arr elems) => loadMapEntries loadK loadV elems []
  | some _ => Except.error (JErr.schemaException "map as array")
  | none => if patch then Except.ok dest else Except.error (JErr.schemaException "map as array")

/-- The member loop of `LoadFromJSONImpl<std::map<std::string, TV>>::Load` (map.h,
lines 81-89): each object member's name is the key (loaded by the `std::string`
loader, which takes the JSON string as is) and its value is loaded and emplaced. -/
def loadStringMapMembers {ν : Type}
    (loadV : JValue → Except JErr ν) :
    List (String × JValue) → List (String × ν) → Except JErr (List (String × ν))
  | [], acc => Except.ok acc
  | (name, jv) :: rest, acc =>
    match loadV jv with
    | Except.ok v => loadStringMapMembers loadV rest (mapEmplace acc name v)
    | Except.error e => Except.error e

/-- `LoadFromJSONImpl<std::map<std::string, TV>>::Load` (map.h, lines 77-93): an
object source clears the destination and loads the members; a present non-object
source, or an absent source outside patch mode, throws `JSONSchemaException`. -/
def loadStringMap {ν : Type} (patch : Bool)
    (loadV : JValue → Except JErr ν)
    (source : Option JValue) (dest : List (String × ν)) : Except JErr (List (String × ν)) :=
  match source with
  | some (JValue.obj members) => loadStringMapMembers loadV members []
  | some _ => Except.error (JErr.schemaException "map as object")
  | none => if patch then Except.ok dest else Except.error (JErr.schemaException "map as object")

/-- A JSON value is an array of exactly two elements. -/
def isArrayOfTwo : JValue → Bool
  | JValue.arr xs => xs.length = 2
  | _ => false

theorem mapEmplace_append {κ ν : Type} [LinearOrder κ] (acc : List (κ × ν)) (k : κ) (v : ν)
    (h : ∀ p ∈ acc, p.1 < k) : mapEmplace acc k v = acc ++ [(k, v)] := by
  induction acc with
  | nil => simp [mapEmplace]
  | cons p rest ih =>
    obtain ⟨k0, v0⟩ := p
    have hk0 : k0 < k := h (k0, v0) (List.mem_cons_self _ _)
    simp only [mapEmplace, if_neg (not_lt_of_gt hk0), if_pos hk0, List.cons_append,
      List.cons.injEq, true_and]
    exact ih fun p hp => h p (List.mem_cons_of_mem _ hp)

theorem loadMapEntries_serialized {κ ν : Type} [LinearOrder κ]
    (loadK : JValue → Except JErr κ) (loadV : JValue → Except JErr ν)
    (serK : κ → JValue) (serV : ν → JValue)
    (m acc : List (κ × ν))
    (hround : ∀ p ∈ m, loadK (serK p.1) = Except.ok p.1 ∧ loadV (serV p.2) = Except.ok p.2)
    (hsorted : m.Pairwise fun a b => a.1 < b.1)
    (hgt : ∀ p ∈ acc, ∀ q ∈ m, p.1 < q.1) :
    loadMapEntries loadK loadV (m.map fun kv => JValue.arr [serK kv.1, serV kv.2]) acc =
      Except.ok (acc ++ m) := by
  induction m generalizing acc with
  | nil => simp [loadMapEntries]
  | cons p rest ih =>
    obtain ⟨k, v⟩ := p
    have hkv := hround (k, v) (List.mem_cons_self _ _)
    have hgt' : ∀ p ∈ acc ++ [(k, v)], ∀ q ∈ rest, p.1 < q.1 := by
      intro q hq r hr
      rcases List.mem_append.mp hq with hq' | hq'
      · exact hgt q hq' r (List.mem_cons_of_mem _ hr)
      · have : q = (k, v) := List.mem_singleton.mp hq'
        subst this
        exact (List.pairwise_cons.mp hsorted).1 r hr
    simp only [List.map_cons, loadMapEntries, hkv.1, hkv.2]
    rw [mapEmplace_append acc k v fun q hq => hgt q hq (k, v) (List.mem_cons_self _ _)]
    rw [ih (acc ++ [(k, v)]) (fun q hq => hround q (List.mem_cons_of_mem _ hq))
      (List.Pairwise.of_cons hsorted) hgt']
    simp

theorem loadStringMapMembers_serialized {ν : Type}
    (loadV : JValue → Except JErr ν) (serV : ν → JValue)
    (m acc : List (String × ν))
    (hround : ∀ p ∈ m, loadV (serV p.2) = Except.ok p.2)
    (hsorted : m.Pairwise fun a b => a.1 < b.1)
    (hgt : ∀ p ∈ acc, ∀ q ∈ m, p.1 < q.1) :
    loadStringMapMembers loadV (m.map fun kv => (kv.1, serV kv.2)) acc =
      Except.ok (acc ++ m) := by
  induction m generalizing acc with
  | nil => simp [loadStringMapMembers]
  | cons p rest ih =>
    obtain ⟨k, v⟩ := p
    have hkv := hround (k, v) (List.mem_cons_self _ _)
    have hgt' : ∀ p ∈ acc ++ [(k, v)], ∀ q ∈ rest, p.1 < q.1 := by
      intro q hq r hr
      rcases List.mem_append.mp hq with hq' | hq'
      · exact hgt q hq' r (List.mem_cons_of_mem _ hr)
      · have : q = (k, v) := List.mem_singleton.mp hq'
        subst this
        exact (List.pairwise_cons.mp hsorted).1 r hr
    simp only [List.map_cons, loadStringMapMembers, hkv]
    rw [mapEmplace_append acc k v fun q hq => hgt q hq (k, v) (List.mem_cons_self _ _)]
    rw [ih (acc ++ [(k, v)]) (fun q hq => hround q (List.mem_cons_of_mem _ hq))
      (List.Pairwise.of_cons hsorted) hgt']
    simp

theorem loadMapEntries_malformed {κ ν : Type} [LinearOrder κ]
    (loadK : JValue → Except JErr κ) (loadV : JValue → Except JErr ν)
    (elems : List JValue) (acc : List (κ × ν))
    (h : ∃ el ∈ elems, isArrayOfTwo el = false) :
    ∃ msg, loadMapEntries loadK loadV elems acc = Except.error (JErr.schemaException msg) := by
  induction elems generalizing acc with
  | nil => simp at h
  | cons el rest ih =>
    by_cases hel : isArrayOfTwo el = false
    · cases el with
      | arr xs =>
        simp only [isArrayOfTwo, decide_eq_false_iff_not] at hel
        match xs, hel with
        | [], _ => exact ⟨_, rfl⟩
        | [x], _ => exact ⟨_, rfl⟩
        | x :: y :: z :: t, _ => exact ⟨_, rfl⟩
        | [x, y], hfalse => exact absurd rfl hfalse
      | null => exact ⟨_, rfl⟩
      | boolean b => exact ⟨_, rfl⟩
      | num n => exact ⟨_, rfl⟩
      | str s => exact ⟨_, rfl⟩
      | obj kvs => exact ⟨_, rfl⟩
    · have hrest : ∃ x ∈ rest, isArrayOfTwo x = false := by
        rcases h with ⟨x, hx, hxf⟩
        rcases List.mem_cons.mp hx with rfl | hx'
        · exact absurd hxf hel
        · exact ⟨x, hx', hxf⟩
      rw [Bool.not_eq_false] at hel
      cases el with
      | arr xs =>
        simp only [isArrayOfTwo, decide_eq_true_eq] at hel
        match xs, hel with
        | [jk, jv], _ =>
          simp only [loadMapEntries]
          cases hk : loadK jk with
          | error e =>
            cases e
            exact ⟨_, rfl⟩
          | ok k =>
            cases hv : loadV jv with
            | error e =>
              cases e
              exact ⟨_, rfl⟩
            | ok v => exact ih (mapEmplace acc k v) hrest
      | null => simp [isArrayOfTwo] at hel
      | boolean b => simp [isArrayOfTwo] at hel
      | num n => simp [isArrayOfTwo] at hel
      | str s => simp [isArrayOfTwo] at hel
      | obj kvs => simp [isArrayOfTwo] at hel

/-- Claim C10: serializing a std::map to JSON and loading the result back yields the
original map. A string-keyed map is encoded as a JSON object keyed by the map keys; a
map with any other key type is encoded as a JSON array of two-element `[key, value]`
arrays; and loading a non-string-keyed map from a value whose entries are not arrays
of exactly two elements throws `JSONSchemaException`. The element (de)serializers are
abstract, required only to round-trip on the elements of the given map; `Pairwise`
captures the strict key ordering of `std::map`. -/
theorem C10_map_roundtrip {κ ν : Type} [LinearOrder κ]
    (serK : κ → JValue) (serV : ν → JValue)
    (loadK : JValue → Except JErr κ) (loadV : JValue → Except JErr ν)
    (m : List (κ × ν)) (sm : List (String × ν))
    (d : List (κ × ν)) (sd : List (String × ν))
    (hm : m.Pairwise fun a b => a.1 < b.1)
    (hsm : sm.Pairwise fun a b => a.1 < b.1)
    (hroundK : ∀ p ∈ m, loadK (serK p.1) = Except.ok p.1 ∧ loadV (serV p.2) = Except.ok p.2)
    (hroundS : ∀ p ∈ sm, loadV (serV p.2) = Except.ok p.2) :
    loadMap false loadK loadV (some (serializeMap serK serV m)) d = Except.ok m
    ∧ loadStringMap false loadV (some (serializeStringMap serV sm)) sd = Except.ok sm
    ∧ serializeMap serK serV m = JValue.arr (m.map fun kv => JValue.arr [serK kv.1, serV kv.2])
    ∧ serializeStringMap serV sm = JValue.obj (sm.map fun kv => (kv.1, serV kv.2))
    ∧ (∀ elems : List JValue, (∃ el ∈ elems, isArrayOfTwo el = false) →
        ∃ msg, loadMap false loadK loadV (some (JValue.arr elems)) d =
          Except.error (JErr.schemaException msg)) := by
  refine ⟨?_, ?_, rfl, rfl, ?_⟩
  · show loadMapEntries loadK loadV (m.map fun kv => JValue.arr [serK kv.1, serV kv.2]) [] =
      Except.ok m
    rw [loadMapEntries_serialized loadK loadV serK serV m [] hroundK hm (by simp)]
    simp
  · show loadStringMapMembers loadV (sm.map fun kv => (kv.1, serV kv.2)) [] = Except.ok sm
    rw [loadStringMapMembers_serialized loadV serV sm [] hroundS hsm (by simp)]
    simp
  · intro elems hbad
    exact loadMapEntries_malformed loadK loadV elems [] hbad

instance {ε α : Type} [DecidableEq ε] [DecidableEq α] : DecidableEq (Except ε α) := fun a b =>
  match a, b with
  | Except.error x, Except.error y => decidable_of_iff (x = y) (by simp)
  | Except.error _, Except.ok _ => isFalse (by simp)
  | Except.ok _, Except.error _ => isFalse (by simp)
  | Except.ok x, Except.ok y => decidable_of_iff (x = y) (by simp)

/-- An integer serializer, used to instantiate the abstract element codecs. -/
def serInt : Int → JValue := JValue.num

/-- An integer loader matching `serInt`. -/
def loadInt : JValue → Except JErr Int
  | JValue.num n => Except.ok n
  | _ => Except.error (JErr.schemaException "number")

/-- Witness for `C10_map_roundtrip` at a concrete input. -/
theorem C10_map_roundtrip_witness :
    loadMap false loadInt loadInt
        (some (serializeMap serInt serInt [((1 : Int), (10 : Int)), (2, 20)])) [] =
      Except.ok [((1 : Int), (10 : Int)), (2, 20)] :=
  (C10_map_roundtrip serInt serInt loadInt loadInt
      [((1 : Int), (10 : Int)), (2, 20)] [("a", (7 : Int))] [] []
      (by decide) (by decide) (by decide) (by decide)).1

end JsonMap

namespace Sherlock

/-- `StreamDataAuthority` (sherlock.h, line 114). -/
inductive StreamDataAuthority where
  | Own : StreamDataAuthority
  | External : StreamDataAuthority
deriving DecidableEq

/-- The stream error taxonomy relevant to the publisher-transfer protocol
(sherlock.h / exceptions.h). -/
inductive StreamError where
  | PublisherAlreadyReleased : StreamError
  | PublisherAlreadyOwned : StreamError
  | PublishToStreamWithReleasedPublisher : StreamError
  | InconsistentTimestamp : StreamError
deriving DecidableEq

/-- `idxts_t`: the (index, epoch-microsecond timestamp) pair assigned at publish. -/
structure IdxTs where
  index : Nat
  us : Int
deriving DecidableEq

/-- The persisted log: the in-order entry timestamps and the head timestamp.
Entry payloads are opaque to the claims here and are omitted. -/
structure Persister where
  entries : List IdxTs
  head : Int
deriving DecidableEq

/-- The timestamp of the last published entry, if any. -/
def lastUs (p : Persister) : Option Int := p.entries.getLast?.map IdxTs.us

/-- The supplied timestamp is acceptable for a publish: strictly after the last
entry's timestamp. -/
def canPublishAt (p : Persister) (us : Int) : Bool :=
  match lastUs p with
  | some l => decide (l < us)
  | none => true

/-- Modelled from the spec: the concrete persistence layer is not among the sources;
spec section 4.2 gives its contract. `publish(entry, us)` appends with the next dense
index; a supplied `us` must satisfy `us > last.us`, failing `InconsistentTimestamp`
otherwise; the head then covers the new entry. -/
def persisterPublish (p : Persister) (us : Int) : Except StreamError (Persister × IdxTs) :=
  if canPublishAt p us then
    let r : IdxTs := ⟨p.entries.length, us⟩
    Except.ok ({ entries := p.entries ++ [r], head := max p.head us }, r)
  else Except.error StreamError.InconsistentTimestamp

/-- Modelled from the spec: `update_head(us)` advances the head; it fails with
`InconsistentTimestamp` if the supplied `us` is below the current head or not past
the last entry's timestamp (spec section 4.2). -/
def persisterUpdateHead (p : Persister) (us : Int) : Except StreamError Persister :=
  if p.head ≤ us ∧ canPublishAt p us then Except.ok { p with head := us }
  else Except.error StreamError.InconsistentTimestamp

/-- The stream facade state relevant to the publisher-transfer protocol: whether the
facade currently holds the publisher handle (`publisher_` non-null), the recorded
authority, and the persisted data. -/
structure Facade where
  hasPublisher : Bool
  authority : StreamDataAuthority
  data : Persister
deriving DecidableEq

/-- `StreamImpl::MovePublisherTo` (sherlock.h, lines 273-282): if the handle is held,
hand it off and record authority External; otherwise fail `PublisherAlreadyReleased`. -/
def MovePublisherTo (f : Facade) : Except StreamError Facade :=
  if f.hasPublisher then
    Except.ok { f with hasPublisher := false, authority := StreamDataAuthority.External }
  else Except.error StreamError.PublisherAlreadyReleased

/-- `StreamImpl::AcquirePublisher` (sherlock.h, lines 284-292): if no handle is held,
install the given one and record authority Own; otherwise fail `PublisherAlreadyOwned`. -/
def AcquirePublisher (f : Facade) : Except StreamError Facade :=
  if f.hasPublisher then Except.error StreamError.PublisherAlreadyOwned
  else Except.ok { f with hasPublisher := true, authority := StreamDataAuthority.Own }

/-- `StreamImpl::PublishImpl` (sherlock.h, lines 668-676): publishing through the
facade fails with `PublishToStreamWithReleasedPublisher` when the handle has been
moved out (`publisher_` null); otherwise it delegates to the persister. The facade
state is returned alongside the result, so a failed call provably leaves the log
untouched. -/
def facadePublish (f : Facade) (us : Int) : Facade × Except StreamError IdxTs :=
  if f.hasPublisher then
    match persisterPublish f.data us with
    | Except.ok (d, r) => ({ f with data := d }, Except.ok r)
    | Except.error e => (f, Except.error e)
  else (f, Except.error StreamError.PublishToStreamWithReleasedPublisher)

/-- `StreamImpl::UpdateHeadImpl` (sherlock.h, lines 678-687): same gate as
`PublishImpl`. -/
def facadeUpdateHead (f : Facade) (us : Int) : Facade × Except StreamError Unit :=
  if f.hasPublisher then
    match persisterUpdateHead f.data us with
    | Except.ok d => ({ f with data := d }, Except.ok ())
    | Except.error e => (f, Except.error e)
  else (f, Except.error StreamError.PublishToStreamWithReleasedPublisher)

/-- Claim C2: after `MovePublisherTo` succeeds, the authority is External, every
facade `Publish` and `UpdateHead` fails with `PublishToStreamWithReleasedPublisher`
leaving the persisted log unchanged, and after `AcquirePublisher` restores the
handle, facade publishing succeeds again (for any timestamp the persister accepts). -/
theorem C2_released_publisher (f f' : Facade)
    (hmv : MovePublisherTo f = Except.ok f') :
    f'.authority = StreamDataAuthority.External
    ∧ (∀ us, (facadePublish f' us).2 =
          Except.error StreamError.PublishToStreamWithReleasedPublisher
        ∧ (facadePublish f' us).1 = f'
        ∧ (facadeUpdateHead f' us).2 =
            Except.error StreamError.PublishToStreamWithReleasedPublisher
        ∧ (facadeUpdateHead f' us).1 = f')
    ∧ (∃ f'', AcquirePublisher f' = Except.ok f''
        ∧ f''.authority = StreamDataAuthority.Own
        ∧ f''.data = f'.data
        ∧ ∀ us, canPublishAt f''.data us = true →
            (facadePublish f'' us).2 = Except.ok ⟨f''.data.entries.length, us⟩) := by
  have hf : f.hasPublisher = true := by
    by_contra h
    simp [MovePublisherTo, h] at hmv
  have hf' : f' = { f with hasPublisher := false, authority := StreamDataAuthority.External } := by
    simp [MovePublisherTo, hf] at hmv
    exact hmv.symm
  subst hf'
  refine ⟨rfl, ?_, ?_⟩
  · intro us
    refine ⟨rfl, rfl, rfl, rfl⟩
  · refine ⟨_, rfl, rfl, rfl, ?_⟩
    intro us hus
    simp [facadePublish, AcquirePublisher, persisterPublish, hus]

/-- Witness for `C2_released_publisher` at a concrete stream state. -/
theorem C2_released_publisher_witness :
    (facadePublish ⟨false, StreamDataAuthority.External, ⟨[], 0⟩⟩ 5).2 =
      Except.error StreamError.PublishToStreamWithReleasedPublisher :=
  ((C2_released_publisher ⟨true, StreamDataAuthority.Own, ⟨[], 0⟩⟩
      ⟨false, StreamDataAuthority.External, ⟨[], 0⟩⟩ (by decide)).2.1 5).1

end Sherlock

namespace SubscriberLoop

/-- An atomic snapshot of the persister, as returned by
`HeadAndLastPublishedIndexAndTimestamp()`: the head timestamp and the stream size
(`last.index + 1` when a last entry exists, `0` otherwise). The last entry's
timestamp is recovered from the global entry list, since the persister reports the
actual last published entry. -/
structure Snapshot where
  size : Nat
  head : Int
deriving DecidableEq

/-- The loop state of `ThreadImpl` (sherlock.h, lines 367-422): the local `head`
(last observed head) and `index` (next index to deliver) variables. -/
structure SubState where
  head : Int
  index : Nat
deriving DecidableEq

/-- One value delivered to the subscriber: either an entry (with its index and
timestamp) or a head-only advance. -/
inductive Delivery where
  | entry : Nat → Int → Delivery
  | headAdvance : Int → Delivery
deriving DecidableEq

/-- Lines 384-403 of `ThreadImpl`: when `size > index`, iterate the entries in
`[index, size)`, deliver each, then set `index = size` and
`head = Value(head_idx.idxts).us` (the last entry's timestamp). `entries` lists the
timestamps of all entries ever published, in index order. -/
def batchStep (entries : List Int) (st : SubState) (s : Snapshot) :
    List Delivery × SubState :=
  if st.index < s.size then
    ((List.range' st.index (s.size - st.index)).map fun i => Delivery.entry i (entries.getD i 0),
      ⟨entries.getD (s.size - 1) 0, s.size⟩)
  else ([], st)

/-- Line 404 of `ThreadImpl`: after the entry batch, when `size > begin_idx` and the
snapshot head still exceeds the observed head, deliver a head-only advance carrying
`head_idx.head`. -/
def advStep (beginIdx : Nat) (st1 : SubState) (s : Snapshot) : List Delivery :=
  if beginIdx < s.size ∧ st1.head < s.head then [Delivery.headAdvance s.head] else []

/-- One iteration of the `while (true)` loop of `ThreadImpl` on the path where the
snapshot head exceeds the observed head (lines 383-407); otherwise the thread waits
on the notifier and delivers nothing. The model follows the `Continue` path of the
subscriber: a `Done` or `Terminate` response only truncates the delivery sequence,
which cannot affect the monotonicity properties claimed. After the iteration the
observed head is `head_idx.head` (line 407). -/
def subStep (beginIdx : Nat) (entries : List Int) (st : SubState) (s : Snapshot) :
    List Delivery × SubState :=
  if st.head < s.head then
    let bs := batchStep entries st s
    (bs.1 ++ advStep beginIdx bs.2 s, ⟨s.head, bs.2.index⟩)
  else ([], st)

/-- The initial loop state (lines 368-369): `head = -1µs`, `index = begin_idx`. -/
def initState (beginIdx : Nat) : SubState := ⟨-1, beginIdx⟩

/-- The full delivery sequence produced by running the subscriber loop over a
sequence of persister snapshots. -/
def subRun (beginIdx : Nat) (entries : List Int) (st : SubState) :
    List Snapshot → List Delivery
  | [] => []
  | s :: rest =>
    (subStep beginIdx entries st s).1 ++
      subRun beginIdx entries (subStep beginIdx entries st s).2 rest

/-- The head advance `h` strictly exceeds the previously delivered head advance,
when one exists. -/
def chkAdv (lastAdv : Option Int) (h : Int) : Bool :=
  match lastAdv with
  | some a => decide (a < h)
  | none => true

/-- The head advance `h` is at least the timestamp of the last delivered entry,
when one exists. -/
def chkUs (lastUs : Option Int) (h : Int) : Bool :=
  match lastUs with
  | some u => decide (u ≤ h)
  | none => true

/-- The delivery sequence is well-ordered with respect to head-only advances:
every head advance strictly exceeds the previous head advance (`lastAdv`) and is at
least the timestamp of the last entry delivered before it (`lastUs`). -/
def goodFrom : Option Int → Option Int → List Delivery → Bool
  | _, _, [] => true
  | lastAdv, _, Delivery.entry _ us :: rest => goodFrom lastAdv (some us) rest
  | lastAdv, lastUs, Delivery.headAdvance h :: rest =>
    chkAdv lastAdv h && chkUs lastUs h && goodFrom (some h) lastUs rest

/-- The last head advance in a delivery prefix, folded onto a previous value. -/
def updAdv (la : Option Int) : List Delivery → Option Int
  | [] => la
  | Delivery.entry _ _ :: rest => updAdv la rest
  | Delivery.headAdvance h :: rest => updAdv (some h) rest

/-- The last entry timestamp in a delivery prefix, folded onto a previous value. -/
def updUs (lu : Option Int) : List Delivery → Option Int
  | [] => lu
  | Delivery.entry _ us :: rest => updUs (some us) rest
  | Delivery.headAdvance _ :: rest => updUs lu rest

theorem updAdv_append (la : Option Int) (ds rest : List Delivery) :
    updAdv la (ds ++ rest) = updAdv (updAdv la ds) rest := by
  induction ds generalizing la with
  | nil => simp [updAdv]
  | cons d tail ih => cases d <;> simp [updAdv, ih]

theorem updUs_append (lu : Option Int) (ds rest : List Delivery) :
    updUs lu (ds ++ rest) = updUs (updUs lu ds) rest := by
  induction ds generalizing lu with
  | nil => simp [updUs]
  | cons d tail ih => cases d <;> simp [updUs, ih]

theorem goodFrom_append (la lu : Option Int) (ds rest : List Delivery) :
    goodFrom la lu (ds ++ rest) =
      (goodFrom la lu ds && goodFrom (updAdv la ds) (updUs lu ds) rest) := by
  induction ds generalizing la lu with
  | nil => simp [goodFrom, updAdv, updUs]
  | cons d tail ih =>
    cases d with
    | entry i us => simp [goodFrom, updAdv, updUs, ih]
    | headAdvance h =>
      simp only [List.cons_append, goodFrom, updAdv, updUs, List.append_eq]
      rw [ih]
      simp [Bool.and_assoc]

/-- A batch of entry deliveries is unconditionally well-ordered and leaves the
last-advance tracker unchanged. -/
theorem goodFrom_entries (la lu : Option Int) (idxs : List Nat) (f : Nat → Int) :
    goodFrom la lu (idxs.map fun i => Delivery.entry i (f i)) = true
    ∧ updAdv la (idxs.map fun i => Delivery.entry i (f i)) = la := by
  induction idxs generalizing lu with
  | nil => simp [goodFrom, updAdv]
  | cons i tail ih => simpa [goodFrom, updAdv] using ih (some (f i))

/-- The last entry timestamp delivered by a non-empty contiguous batch is the
timestamp of the entry at the top index. -/
theorem updUs_batch (lu : Option Int) (a n : Nat) (f : Nat → Int) :
    updUs lu ((List.range' a (n + 1)).map fun i => Delivery.entry i (f i)) =
      some (f (a + n)) := by
  rw [List.range'_1_concat, List.map_append, updUs_append]
  simp [updUs]

/-- The step invariant: both trackers are bounded by the observed head. -/
abbrev inv (st : SubState) (la lu : Option Int) : Prop :=
  (∀ a, la = some a → a ≤ st.head) ∧ (∀ u, lu = some u → u ≤ st.head)

theorem chkAdv_of_bound (la : Option Int) (b h : Int)
    (hb : ∀ a, la = some a → a ≤ b) (hlt : b < h) : chkAdv la h = true := by
  cases la with
  | none => rfl
  | some a => simpa [chkAdv] using lt_of_le_of_lt (hb a rfl) hlt

theorem chkUs_of_bound (lu : Option Int) (b h : Int)
    (hb : ∀ u, lu = some u → u ≤ b) (hle : b ≤ h) : chkUs lu h = true := by
  cases lu with
  | none => rfl
  | some u => simpa [chkUs] using le_trans (hb u rfl) hle

theorem subStep_fst_pos (beginIdx : Nat) (entries : List Int) (st : SubState)
    (s : Snapshot) (h : st.head < s.head) :
    (subStep beginIdx entries st s).1 =
      (batchStep entries st s).1 ++ advStep beginIdx (batchStep entries st s).2 s := by
  simp [subStep, h]

theorem subStep_snd_pos (beginIdx : Nat) (entries : List Int) (st : SubState)
    (s : Snapshot) (h : st.head < s.head) :
    (subStep beginIdx entries st s).2 = ⟨s.head, (batchStep entries st s).2.index⟩ := by
  simp [subStep, h]

theorem subStep_fst_neg (beginIdx : Nat) (entries : List Int) (st : SubState)
    (s : Snapshot) (h : ¬st.head < s.head) :
    (subStep beginIdx entries st s).1 = [] := by
  simp [subStep, h]

theorem subStep_snd_neg (beginIdx : Nat) (entries : List Int) (st : SubState)
    (s : Snapshot) (h : ¬st.head < s.head) :
    (subStep beginIdx entries st s).2 = st := by
  simp [subStep, h]

theorem batchStep_fst_pos (entries : List Int) (st : SubState) (s : Snapshot)
    (h : st.index < s.size) :
    (batchStep entries st s).1 = (List.range' st.index (s.size - st.index)).map
      fun i => Delivery.entry i (entries.getD i 0) := by
  simp [batchStep, h]

theorem batchStep_snd_pos (entries : List Int) (st : SubState) (s : Snapshot)
    (h : st.index < s.size) :
    (batchStep entries st s).2 = ⟨entries.getD (s.size - 1) 0, s.size⟩ := by
  simp [batchStep, h]

theorem batchStep_fst_neg (entries : List Int) (st : SubState) (s : Snapshot)
    (h : ¬st.index < s.size) : (batchStep entries st s).1 = [] := by
  simp [batchStep, h]

theorem batchStep_snd_neg (entries : List Int) (st : SubState) (s : Snapshot)
    (h : ¬st.index < s.size) : (batchStep entries st s).2 = st := by
  simp [batchStep, h]

theorem advStep_pos (beginIdx : Nat) (st1 : SubState) (s : Snapshot)
    (h : beginIdx < s.size ∧ st1.head < s.head) :
    advStep beginIdx st1 s = [Delivery.headAdvance s.head] := by
  simp [advStep, h]

theorem advStep_neg (beginIdx : Nat) (st1 : SubState) (s : Snapshot)
    (h : ¬(beginIdx < s.size ∧ st1.head < s.head)) :
    advStep beginIdx st1 s = [] := by
  simp only [advStep, if_neg h]

theorem subStep_good (beginIdx : Nat) (entries : List Int) (st : SubState) (s : Snapshot)
    (hsnap : 0 < s.size → entries.getD (s.size - 1) 0 ≤ s.head)
    (la lu : Option Int) (hinv : inv st la lu) :
    goodFrom la lu (subStep beginIdx entries st s).1 = true
    ∧ inv (subStep beginIdx entries st s).2
        (updAdv la (subStep beginIdx entries st s).1)
        (updUs lu (subStep beginIdx entries st s).1) := by
  by_cases hact : st.head < s.head
  case neg =>
    rw [subStep_fst_neg beginIdx entries st s hact, subStep_snd_neg beginIdx entries st s hact]
    exact ⟨rfl, hinv⟩
  case pos =>
  rw [subStep_fst_pos beginIdx entries st s hact, subStep_snd_pos beginIdx entries st s hact]
  by_cases hbatch : st.index < s.size
  case pos =>
    have hsz : 0 < s.size := Nat.lt_of_le_of_lt (Nat.zero_le _) hbatch
    have hlast : entries.getD (s.size - 1) 0 ≤ s.head := hsnap hsz
    have hn : s.size - st.index = (s.size - st.index - 1) + 1 := by omega
    have hidx : st.index + (s.size - st.index - 1) = s.size - 1 := by omega
    have hEnt := goodFrom_entries la lu (List.range' st.index (s.size - st.index))
      fun i => entries.getD i 0
    have hUs : updUs lu ((List.range' st.index (s.size - st.index)).map
        fun i => Delivery.entry i (entries.getD i 0)) =
        some (entries.getD (s.size - 1) 0) := by
      rw [hn, updUs_batch, hidx]
    rw [batchStep_fst_pos entries st s hbatch, batchStep_snd_pos entries st s hbatch]
    by_cases hadv : beginIdx < s.size ∧ entries.getD (s.size - 1) 0 < s.head
    case pos =>
      rw [advStep_pos beginIdx _ s hadv]
      rw [goodFrom_append, updAdv_append, updUs_append, hEnt.1, hEnt.2, hUs]
      refine ⟨?_, ?_, ?_⟩
      · simp only [Bool.true_and, goodFrom, Bool.and_true]
        rw [chkAdv_of_bound la st.head s.head hinv.1 hact, Bool.true_and]
        simp only [chkUs]
        exact decide_eq_true hlast
      · intro a ha
        simp only [updAdv, Option.some.injEq] at ha
        exact le_of_eq ha.symm
      · intro u hu
        simp only [updUs, Option.some.injEq] at hu
        exact hu ▸ hlast
    case neg =>
      rw [advStep_neg beginIdx _ s hadv, List.append_nil, hEnt.2, hUs]
      refine ⟨hEnt.1, ?_, ?_⟩
      · intro a ha
        exact le_of_lt (lt_of_le_of_lt (hinv.1 a ha) hact)
      · intro u hu
        simp only [Option.some.injEq] at hu
        exact hu ▸ hlast
  case neg =>
    rw [batchStep_fst_neg entries st s hbatch, batchStep_snd_neg entries st s hbatch]
    by_cases hb : beginIdx < s.size ∧ st.head < s.head
    case pos =>
      rw [advStep_pos beginIdx st s hb, List.nil_append]
      refine ⟨?_, ?_, ?_⟩
      · simp only [goodFrom, Bool.and_true]
        rw [chkAdv_of_bound la st.head s.head hinv.1 hact, Bool.true_and]
        exact chkUs_of_bound lu st.head s.head hinv.2 (le_of_lt hact)
      · intro a ha
        simp only [updAdv, Option.some.injEq] at ha
        exact le_of_eq ha.symm
      · intro u hu
        simp only [updUs] at hu
        exact le_of_lt (lt_of_le_of_lt (hinv.2 u hu) hact)
    case neg =>
      rw [advStep_neg beginIdx st s hb, List.nil_append]
      refine ⟨?_, ?_, ?_⟩
      · rfl
      · intro a ha
        simp only [updAdv] at ha
        exact le_of_lt (lt_of_le_of_lt (hinv.1 a ha) hact)
      · intro u hu
        simp only [updUs] at hu
        exact le_of_lt (lt_of_le_of_lt (hinv.2 u hu) hact)

theorem subRun_good (beginIdx : Nat) (entries : List Int) (snaps : List Snapshot)
    (hsnap : ∀ s ∈ snaps, 0 < s.size → entries.getD (s.size - 1) 0 ≤ s.head)
    (st : SubState) (la lu : Option Int) (hinv : inv st la lu) :
    goodFrom la lu (subRun beginIdx entries st snaps) = true := by
  induction snaps generalizing st la lu with
  | nil => rfl
  | cons s rest ih =>
    have hstep := subStep_good beginIdx entries st s
      (hsnap s (List.mem_cons_self _ _)) la lu hinv
    simp only [subRun]
    rw [goodFrom_append, hstep.1, Bool.true_and]
    exact ih (fun x hx => hsnap x (List.mem_cons_of_mem _ hx)) _ _ _ hstep.2

/-- Claim C1: over any run of the subscriber loop (any sequence of persister
snapshots consistent with the persister invariant `head ≥ last.us`), the head-only
advance values delivered are strictly increasing and each is at least the timestamp
of the last entry delivered before it (`goodFrom`); moreover a head-only advance is
emitted in an iteration only when the snapshot size exceeds `begin_idx`, it carries
the snapshot head, and the snapshot head strictly exceeds the observed head as
updated by that iteration's entry batch. -/
theorem C1_head_advances (beginIdx : Nat) (entries : List Int) (snaps : List Snapshot)
    (hsnap : ∀ s ∈ snaps, 0 < s.size → entries.getD (s.size - 1) 0 ≤ s.head) :
    goodFrom none none (subRun beginIdx entries (initState beginIdx) snaps) = true
    ∧ (∀ (st : SubState) (s : Snapshot) (h : Int),
        Delivery.headAdvance h ∈ (subStep beginIdx entries st s).1 →
        beginIdx < s.size ∧ h = s.head ∧ (batchStep entries st s).2.head < s.head) := by
  constructor
  · have hinv0 : inv (initState beginIdx) none none := by
      constructor
      · intro a ha
        simp at ha
      · intro u hu
        simp at hu
    exact subRun_good beginIdx entries snaps hsnap _ none none hinv0
  · intro st s h hmem
    by_cases hact : st.head < s.head
    · rw [subStep_fst_pos beginIdx entries st s hact] at hmem
      rcases List.mem_append.mp hmem with hm | hm
      · exfalso
        by_cases hbatch : st.index < s.size
        · rw [batchStep_fst_pos entries st s hbatch] at hm
          obtain ⟨i, _, hi⟩ := List.mem_map.mp hm
          exact Delivery.noConfusion hi
        · rw [batchStep_fst_neg entries st s hbatch] at hm
          exact (List.not_mem_nil _) hm
      · by_cases hc : beginIdx < s.size ∧ (batchStep entries st s).2.head < s.head
        · rw [advStep_pos beginIdx _ s hc] at hm
          have heq := List.mem_singleton.mp hm
          injection heq with hv
          exact ⟨hc.1, hv, hc.2⟩
        · rw [advStep_neg beginIdx _ s hc] at hm
          exact absurd hm (List.not_mem_nil _)
    · rw [subStep_fst_neg beginIdx entries st s hact] at hmem
      exact absurd hmem (List.not_mem_nil _)

/-- Witness for `C1_head_advances` at a concrete run: two entries at 10µs and 20µs,
one snapshot after the first entry with head 15, one after the second with head 30. -/
theorem C1_head_advances_witness :
    goodFrom none none
      (subRun 0 [10, 20] (initState 0) [Snapshot.mk 1 15, Snapshot.mk 2 30]) = true :=
  (C1_head_advances 0 [10, 20] [Snapshot.mk 1 15, Snapshot.mk 2 30] (by decide)).1

end SubscriberLoop

namespace Http

/-- The largest `uint64_t` value, `static_cast<uint64_t>(-1)` in the source. -/
def u64max : Nat := 2 ^ 64 - 1

/-- The parsed query parameters used by `ServeDataViaHTTP`, as consumed in
sherlock.h (lines 482-612). `ParsePubSubHTTPRequest` lives outside these sources;
the fields are typed after their uses: `tail` is a `uint64_t` whose truthiness
(`if (request_params.tail)`, i.e. non-zero) marks presence, `recent` and `since` are
microsecond counts marking presence by being positive, `i` defaults to 0. -/
structure RequestParams where
  terminate_requested : Bool
  terminate_id : String
  size_only : Bool
  schema_requested : Bool
  schema_format : String
  i : Nat
  tail : Nat
  recent : Int
  since : Int
  no_wait : Bool
deriving DecidableEq

/-- The stream-side context of one `ServeDataViaHTTP` call: the registered HTTP
subscription ids (the keys of `http_subscriptions.subscribers_map`), the current
stream size, the per-language schema texts (`schema_as_object_.language`), the
schema identity triple, the request method and arrival timestamp, and the
persister's `IndexRangeByTimestampRange(ts, 0).first` as a function. -/
structure ServeCtx where
  subs : List String
  streamSize : Nat
  langs : List (String × String)
  typeId : Nat
  entryName : String
  namespaceName : String
  method : String
  rTimestamp : Int
  idxByTs : Int → Nat

/-- `SherlockSchemaFormatNotFound` (sherlock.h, lines 109-112): the 404 body for an
unknown schema format. -/
structure SchemaFormatNotFoundBody where
  error : String
  unsupported_format_requested : Option String
deriving DecidableEq

/-- The response of `ServeDataViaHTTP`, one constructor per exit path of the
source function. -/
inductive ServeResponse where
  | terminateOK : String → ServeResponse
  | terminateNotFound : ServeResponse
  | methodNotAllowed : ServeResponse
  | sizeOnlyResponse : String → String → ServeResponse
  | schemaFull : ServeResponse
  | schemaSimple : Nat → String → String → ServeResponse
  | schemaLanguage : String → ServeResponse
  | schemaNotFound : SchemaFormatNotFoundBody → ServeResponse
  | nowaitEmpty : ServeResponse
  | subscription : Nat → ServeResponse
deriving DecidableEq

/-- Lines 540-563 of `ServeDataViaHTTP`: the start-index selection. `begin_idx`
starts at 0 and `from_timestamp` at 0; the `tail` branch (entered when `tail` is
non-zero) either skips the backlog (`tail == uint64_t(-1)`) or takes
`max(i, size - tail)` with the subtraction clamped at 0; otherwise `recent`, then
`since`, set `from_timestamp`; otherwise `begin_idx = i`. A positive
`from_timestamp` then contributes `min(IndexRangeByTimestampRange(ft, 0).first,
size)` through a `max` with the selected `begin_idx`. -/
def computeBeginIdx (ctx : ServeCtx) (p : RequestParams) : Nat :=
  let pair : Nat × Int :=
    if p.tail ≠ 0 then
      (if p.tail = u64max then ctx.streamSize
       else max p.i (if p.tail < ctx.streamSize then ctx.streamSize - p.tail else 0), 0)
    else if p.recent > 0 then (0, ctx.rTimestamp - p.recent)
    else if p.since > 0 then (0, p.since)
    else (p.i, 0)
  if pair.2 > 0 then max pair.1 (min (ctx.idxByTs pair.2) ctx.streamSize)
  else pair.1

/-- `StreamImpl::ServeDataViaHTTP` (sherlock.h, lines 470-612), branch for branch:
`terminate` handling first (200 on a registered id, 404 otherwise); then the
method check (only GET and HEAD proceed, 405 otherwise); then `sizeonly` (size in
the header, size plus newline as the body on GET, empty body on HEAD); then
`schema` (empty format: the full descriptor response; `simple`: the
`SubscribableSherlockSchema` triple; a known language: its schema text; anything
else: 404 with `SherlockSchemaFormatNotFound`); otherwise the start index is
computed and either `nowait` returns 200 with an empty body or a subscription is
created at that index. -/
def serveDataViaHTTP (ctx : ServeCtx) (p : RequestParams) : ServeResponse :=
  if p.terminate_requested then
    if p.terminate_id ∈ ctx.subs then ServeResponse.terminateOK p.terminate_id
    else ServeResponse.terminateNotFound
  else if ctx.method ≠ "GET" ∧ ctx.method ≠ "HEAD" then ServeResponse.methodNotAllowed
  else if p.size_only then
    ServeResponse.sizeOnlyResponse
      (if ctx.method = "GET" then toString ctx.streamSize ++ "\n" else "")
      (toString ctx.streamSize)
  else if p.schema_requested then
    if p.schema_format = "" then ServeResponse.schemaFull
    else if p.schema_format = "simple" then
      ServeResponse.schemaSimple ctx.typeId ctx.entryName ctx.namespaceName
    else
      match ctx.langs.lookup p.schema_format with
      | some text => ServeResponse.schemaLanguage text
      | none =>
        ServeResponse.schemaNotFound
          ⟨"Unsupported schema format requested.", some p.schema_format⟩
  else
    if p.no_wait ∧ computeBeginIdx ctx p ≥ ctx.streamSize then ServeResponse.nowaitEmpty
    else ServeResponse.subscription (computeBeginIdx ctx p)

/-- The HTTP status code of each exit path, as passed to `r(...)` in the source. -/
def responseCode : ServeResponse → Nat
  | ServeResponse.terminateOK _ => 200
  | ServeResponse.terminateNotFound => 404
  | ServeResponse.methodNotAllowed => 405
  | ServeResponse.sizeOnlyResponse _ _ => 200
  | ServeResponse.schemaFull => 200
  | ServeResponse.schemaSimple _ _ _ => 200
  | ServeResponse.schemaLanguage _ => 200
  | ServeResponse.schemaNotFound _ => 404
  | ServeResponse.nowaitEmpty => 200
  | ServeResponse.subscription _ => 200

/-- The plain-string response body, where the source passes one. -/
def responseBody : ServeResponse → Option String
  | ServeResponse.terminateOK _ => some ""
  | ServeResponse.terminateNotFound => some ""
  | ServeResponse.sizeOnlyResponse b _ => some b
  | ServeResponse.schemaLanguage t => some t
  | ServeResponse.nowaitEmpty => some ""
  | _ => none

/-- Whether the exit path creates an HTTP subscription. -/
def createsSubscription : ServeResponse → Bool
  | ServeResponse.subscription _ => true
  | _ => false

/-- The subscription id whose `AsyncTerminate` is invoked, if any. -/
def asyncTerminated : ServeResponse → Option String
  | ServeResponse.terminateOK id => some id
  | _ => none

/-- The five top-level dispatch groups of `ServeDataViaHTTP`. -/
inductive ServeCategory where
  | terminateCat : ServeCategory
  | methodCat : ServeCategory
  | sizeCat : ServeCategory
  | schemaCat : ServeCategory
  | startCat : ServeCategory
deriving DecidableEq

/-- The dispatch group of each exit path. -/
def categoryOf : ServeResponse → ServeCategory
  | ServeResponse.terminateOK _ => ServeCategory.terminateCat
  | ServeResponse.terminateNotFound => ServeCategory.terminateCat
  | ServeResponse.methodNotAllowed => ServeCategory.methodCat
  | ServeResponse.sizeOnlyResponse _ _ => ServeCategory.sizeCat
  | ServeResponse.schemaFull => ServeCategory.schemaCat
  | ServeResponse.schemaSimple _ _ _ => ServeCategory.schemaCat
  | ServeResponse.schemaLanguage _ => ServeCategory.schemaCat
  | ServeResponse.schemaNotFound _ => ServeCategory.schemaCat
  | ServeResponse.nowaitEmpty => ServeCategory.startCat
  | ServeResponse.subscription _ => ServeCategory.startCat

/-- Defined from the spec's precedence sentence, for the refinement claim C6:
`terminate` before the method check, before `sizeonly`, before `schema`, before
start-selection. -/
def specServeCategory (method : String) (p : RequestParams) : ServeCategory :=
  if p.terminate_requested then ServeCategory.terminateCat
  else if method ≠ "GET" ∧ method ≠ "HEAD" then ServeCategory.methodCat
  else if p.size_only then ServeCategory.sizeCat
  else if p.schema_requested then ServeCategory.schemaCat
  else ServeCategory.startCat

theorem computeBeginIdx_tail_max (ctx : ServeCtx) (p : RequestParams)
    (_htail : p.tail ≠ 0) (hmax : p.tail = u64max) :
    computeBeginIdx ctx p = ctx.streamSize := by
  have hne : u64max ≠ 0 := by decide
  simp [computeBeginIdx, hmax, hne]

theorem computeBeginIdx_tail (ctx : ServeCtx) (p : RequestParams)
    (htail : p.tail ≠ 0) (hmax : p.tail ≠ u64max) :
    computeBeginIdx ctx p = max p.i (ctx.streamSize - p.tail) := by
  have hsub : (if p.tail < ctx.streamSize then ctx.streamSize - p.tail else 0) =
      ctx.streamSize - p.tail := by
    by_cases hlt : p.tail < ctx.streamSize
    · simp [hlt]
    · simp only [if_neg hlt]
      omega
  simp [computeBeginIdx, htail, hmax, hsub]

theorem computeBeginIdx_recent (ctx : ServeCtx) (p : RequestParams)
    (htail : p.tail = 0) (hrec : 0 < p.recent) :
    computeBeginIdx ctx p =
      (if 0 < ctx.rTimestamp - p.recent
       then min (ctx.idxByTs (ctx.rTimestamp - p.recent)) ctx.streamSize
       else 0) := by
  by_cases hft : 0 < ctx.rTimestamp - p.recent
  · simp [computeBeginIdx, htail, hrec, hft, Nat.zero_max]
  · simp [computeBeginIdx, htail, hrec, hft]

theorem computeBeginIdx_since (ctx : ServeCtx) (p : RequestParams)
    (htail : p.tail = 0) (hrec : p.recent ≤ 0) (hsince : 0 < p.since) :
    computeBeginIdx ctx p = min (ctx.idxByTs p.since) ctx.streamSize := by
  simp [computeBeginIdx, htail, not_lt.mpr hrec, hsince, Nat.zero_max]

theorem computeBeginIdx_default (ctx : ServeCtx) (p : RequestParams)
    (htail : p.tail = 0) (hrec : p.recent ≤ 0) (hsince : p.since ≤ 0) :
    computeBeginIdx ctx p = p.i := by
  simp [computeBeginIdx, htail, not_lt.mpr hrec, not_lt.mpr hsince]

/-- Claim C3: with `tail` present (non-zero), the starting index is the stream size
when `tail` is the maximum `uint64_t` value, and `max(i, size - tail)` otherwise,
the subtraction taken as 0 when `tail ≥ size` (which is exactly truncated `Nat`
subtraction). -/
theorem C3_tail_start (ctx : ServeCtx) (p : RequestParams) (htail : p.tail ≠ 0) :
    (p.tail = u64max → computeBeginIdx ctx p = ctx.streamSize)
    ∧ (p.tail ≠ u64max →
        computeBeginIdx ctx p = max p.i (ctx.streamSize - p.tail)) :=
  ⟨computeBeginIdx_tail_max ctx p htail, computeBeginIdx_tail ctx p htail⟩

/-- Witness for `C3_tail_start`: size 10, i 3, tail 5 gives `max 3 (10 - 5) = 5`. -/
theorem C3_tail_start_witness :
    computeBeginIdx ⟨[], 10, [], 0, "", "", "GET", 0, fun _ => 0⟩
      ⟨false, "", false, false, "", 3, 5, 0, 0, false⟩ = max 3 (10 - 5) :=
  (C3_tail_start ⟨[], 10, [], 0, "", "", "GET", 0, fun _ => 0⟩
      ⟨false, "", false, false, "", 3, 5, 0, 0, false⟩ (by decide)).2 (by decide)

/-- Claim C4, counterexample to the claim as stated: with `since = 1`, `i = 5`,
stream size 10 and a timestamp-derived index of 0, the code starts at 0, not at
`max(0, 5) = 5`: in the `recent`/`since` branches `begin_idx` stays 0, so the final
`max(begin_idx, idx_by_timestamp)` never involves `i`. -/
theorem C4_counterexample :
    computeBeginIdx ⟨[], 10, [], 0, "", "", "GET", 0, fun _ => 0⟩
        ⟨false, "", false, false, "", 5, 0, 0, 1, false⟩ = 0
    ∧ max (min ((fun _ => (0 : Nat)) (1 : Int)) 10) 5 = 5
    ∧ computeBeginIdx ⟨[], 10, [], 0, "", "", "GET", 0, fun _ => 0⟩
        ⟨false, "", false, false, "", 5, 0, 0, 1, false⟩ ≠
      max (min ((fun _ => (0 : Nat)) (1 : Int)) 10) 5 := by
  refine ⟨by decide, by decide, by decide⟩

/-- Claim C4 (amended): when a timestamp-based start (`recent`, or else `since`)
applies, the `i` parameter is ignored; the starting index is the timestamp-derived
index clamped to the stream size when the computed from-timestamp is positive, and
0 otherwise. -/
theorem C4_timestamp_start (ctx : ServeCtx) (p : RequestParams)
    (htail : p.tail = 0)
    (hts : 0 < p.recent ∨ (p.recent ≤ 0 ∧ 0 < p.since)) :
    computeBeginIdx ctx p =
      (if 0 < (if 0 < p.recent then ctx.rTimestamp - p.recent else p.since)
       then min (ctx.idxByTs (if 0 < p.recent then ctx.rTimestamp - p.recent else p.since))
              ctx.streamSize
       else 0)
    ∧ ∀ j : Nat, computeBeginIdx ctx { p with i := j } = computeBeginIdx ctx p := by
  rcases hts with hrec | ⟨hrec, hsince⟩
  · constructor
    · rw [computeBeginIdx_recent ctx p htail hrec]
      simp [hrec]
    · intro j
      rw [computeBeginIdx_recent ctx { p with i := j } htail hrec,
        computeBeginIdx_recent ctx p htail hrec]
  · constructor
    · rw [computeBeginIdx_since ctx p htail hrec hsince]
      simp [not_lt.mpr hrec, hsince]
    · intro j
      rw [computeBeginIdx_since ctx { p with i := j } htail hrec hsince,
        computeBeginIdx_since ctx p htail hrec hsince]

/-- Witness for `C4_timestamp_start`: `since = 7`, derived index 2, size 10. -/
theorem C4_timestamp_start_witness :
    computeBeginIdx ⟨[], 10, [], 0, "", "", "GET", 0, fun _ => 2⟩
      ⟨false, "", false, false, "", 5, 0, 0, 7, false⟩ = min 2 10 :=
  (C4_timestamp_start ⟨[], 10, [], 0, "", "", "GET", 0, fun _ => 2⟩
      ⟨false, "", false, false, "", 5, 0, 0, 7, false⟩ rfl
      (Or.inr ⟨le_refl 0, by decide⟩)).1

/-- Claim C5: a request carrying `nowait` whose computed starting index is at least
the current stream size returns 200 immediately with an empty body and creates no
subscription. -/
theorem C5_nowait (ctx : ServeCtx) (p : RequestParams)
    (hterm : p.terminate_requested = false)
    (hmethod : ctx.method = "GET" ∨ ctx.method = "HEAD")
    (hsize : p.size_only = false)
    (hschema : p.schema_requested = false)
    (hnw : p.no_wait = true)
    (hbeg : computeBeginIdx ctx p ≥ ctx.streamSize) :
    serveDataViaHTTP ctx p = ServeResponse.nowaitEmpty
    ∧ responseCode (serveDataViaHTTP ctx p) = 200
    ∧ responseBody (serveDataViaHTTP ctx p) = some ""
    ∧ createsSubscription (serveDataViaHTTP ctx p) = false := by
  have hm : ¬(ctx.method ≠ "GET" ∧ ctx.method ≠ "HEAD") := by
    rcases hmethod with h | h <;> simp [h]
  have hserve : serveDataViaHTTP ctx p = ServeResponse.nowaitEmpty := by
    simp [serveDataViaHTTP, hterm, hm, hsize, hschema, hnw, hbeg]
  exact ⟨hserve, by rw [hserve]; rfl, by rw [hserve]; rfl, by rw [hserve]; rfl⟩

/-- Witness for `C5_nowait`: empty stream, `nowait` set, start 0 ≥ size 0. -/
theorem C5_nowait_witness :
    serveDataViaHTTP ⟨[], 0, [], 0, "", "", "GET", 0, fun _ => 0⟩
      ⟨false, "", false, false, "", 0, 0, 0, 0, true⟩ = ServeResponse.nowaitEmpty :=
  (C5_nowait ⟨[], 0, [], 0, "", "", "GET", 0, fun _ => 0⟩
      ⟨false, "", false, false, "", 0, 0, 0, 0, true⟩
      rfl (Or.inl rfl) rfl rfl rfl (by decide)).1

/-- Claim C6: the dispatch precedence is `terminate`, then the GET/HEAD method
check, then `sizeonly`, then `schema`, then start-selection (`specServeCategory` is
written from the spec's precedence sentence); and within start-selection exactly one
of `tail`, `recent`, `since`, `i` determines the start, checked in that order. -/
theorem C6_precedence (ctx : ServeCtx) (p : RequestParams) :
    categoryOf (serveDataViaHTTP ctx p) = specServeCategory ctx.method p
    ∧ (p.tail ≠ 0 → computeBeginIdx ctx p =
        (if p.tail = u64max then ctx.streamSize
         else max p.i (ctx.streamSize - p.tail)))
    ∧ (p.tail = 0 → 0 < p.recent → computeBeginIdx ctx p =
        (if 0 < ctx.rTimestamp - p.recent
         then min (ctx.idxByTs (ctx.rTimestamp - p.recent)) ctx.streamSize
         else 0))
    ∧ (p.tail = 0 → p.recent ≤ 0 → 0 < p.since → computeBeginIdx ctx p =
        min (ctx.idxByTs p.since) ctx.streamSize)
    ∧ (p.tail = 0 → p.recent ≤ 0 → p.since ≤ 0 → computeBeginIdx ctx p = p.i) := by
  refine ⟨?_, ?_, ?_, ?_, ?_⟩
  · simp only [serveDataViaHTTP, specServeCategory]
    by_cases h1 : p.terminate_requested
    · simp only [if_pos h1]
      by_cases h2 : p.terminate_id ∈ ctx.subs <;> simp [h2, categoryOf]
    · simp only [if_neg h1]
      by_cases h2 : ctx.method ≠ "GET" ∧ ctx.method ≠ "HEAD"
      · simp [h2, categoryOf]
      · simp only [if_neg h2]
        by_cases h3 : p.size_only
        · simp [h3, categoryOf]
        · simp only [if_neg h3]
          by_cases h4 : p.schema_requested
          · simp only [if_pos h4]
            by_cases h5 : p.schema_format = ""
            · simp [h5, categoryOf]
            · simp only [if_neg h5]
              by_cases h6 : p.schema_format = "simple"
              · simp [h6, categoryOf]
              · simp only [if_neg h6]
                cases ctx.langs.lookup p.schema_format <;> simp [categoryOf]
          · simp only [if_neg h4]
            by_cases h7 : p.no_wait ∧ computeBeginIdx ctx p ≥ ctx.streamSize <;>
              simp [h7, categoryOf]
  · intro htail
    by_cases hmax : p.tail = u64max
    · rw [computeBeginIdx_tail_max ctx p htail hmax, if_pos hmax]
    · rw [computeBeginIdx_tail ctx p htail hmax, if_neg hmax]
  · intro htail hrec
    exact computeBeginIdx_recent ctx p htail hrec
  · intro htail hrec hsince
    exact computeBeginIdx_since ctx p htail hrec hsince
  · intro htail hrec hsince
    exact computeBeginIdx_default ctx p htail hrec hsince

/-- Witness for `C6_precedence`: with no `tail`, `recent` or `since`, the start is
the `i` parameter. -/
theorem C6_precedence_witness :
    computeBeginIdx ⟨[], 10, [], 0, "", "", "GET", 0, fun _ => 0⟩
      ⟨false, "", false, false, "", 4, 0, 0, 0, false⟩ = 4 :=
  (C6_precedence ⟨[], 10, [], 0, "", "", "GET", 0, fun _ => 0⟩
      ⟨false, "", false, false, "", 4, 0, 0, 0, false⟩).2.2.2.2 rfl (le_refl 0) (le_refl 0)

/-- Claim C7: a `terminate=<id>` request asynchronously terminates the subscription
with that id and returns 200 with an empty body when the id is registered, and
returns 404 (terminating nothing) otherwise. -/
theorem C7_terminate (ctx : ServeCtx) (p : RequestParams)
    (hterm : p.terminate_requested = true) :
    (p.terminate_id ∈ ctx.subs →
      serveDataViaHTTP ctx p = ServeResponse.terminateOK p.terminate_id
      ∧ asyncTerminated (serveDataViaHTTP ctx p) = some p.terminate_id
      ∧ responseCode (serveDataViaHTTP ctx p) = 200
      ∧ responseBody (serveDataViaHTTP ctx p) = some "")
    ∧ (p.terminate_id ∉ ctx.subs →
      serveDataViaHTTP ctx p = ServeResponse.terminateNotFound
      ∧ asyncTerminated (serveDataViaHTTP ctx p) = none
      ∧ responseCode (serveDataViaHTTP ctx p) = 404) := by
  constructor
  · intro hmem
    have hs : serveDataViaHTTP ctx p = ServeResponse.terminateOK p.terminate_id := by
      simp [serveDataViaHTTP, hterm, hmem]
    exact ⟨hs, by rw [hs]; rfl, by rw [hs]; rfl, by rw [hs]; rfl⟩
  · intro hmem
    have hs : serveDataViaHTTP ctx p = ServeResponse.terminateNotFound := by
      simp [serveDataViaHTTP, hterm, hmem]
    exact ⟨hs, by rw [hs]; rfl, by rw [hs]; rfl⟩

/-- Witness for `C7_terminate`: id "x" registered, then terminating "x". -/
theorem C7_terminate_witness :
    serveDataViaHTTP ⟨["x"], 0, [], 0, "", "", "GET", 0, fun _ => 0⟩
      ⟨true, "x", false, false, "", 0, 0, 0, 0, false⟩ = ServeResponse.terminateOK "x" :=
  ((C7_terminate ⟨["x"], 0, [], 0, "", "", "GET", 0, fun _ => 0⟩
      ⟨true, "x", false, false, "", 0, 0, 0, 0, false⟩ rfl).1 (by decide)).1

/-- Claim C8: for a `schema` request, an empty `format` returns the full schema
descriptor response; `format=simple` returns the `{type_id, entry_name,
namespace_name}` triple; a `format` naming a known language returns that language's
schema text; and any other `format` returns 404 with a body whose error message is
the fixed default and whose `unsupported_format_requested` is the requested format. -/
theorem C8_schema (ctx : ServeCtx) (p : RequestParams)
    (hterm : p.terminate_requested = false)
    (hmethod : ctx.method = "GET" ∨ ctx.method = "HEAD")
    (hsize : p.size_only = false)
    (hschema : p.schema_requested = true) :
    (p.schema_format = "" → serveDataViaHTTP ctx p = ServeResponse.schemaFull)
    ∧ (p.schema_format = "simple" →
        serveDataViaHTTP ctx p =
          ServeResponse.schemaSimple ctx.typeId ctx.entryName ctx.namespaceName)
    ∧ (∀ text, p.schema_format ≠ "" → p.schema_format ≠ "simple" →
        ctx.langs.lookup p.schema_format = some text →
        serveDataViaHTTP ctx p = ServeResponse.schemaLanguage text)
    ∧ (p.schema_format ≠ "" → p.schema_format ≠ "simple" →
        ctx.langs.lookup p.schema_format = none →
        serveDataViaHTTP ctx p = ServeResponse.schemaNotFound
            ⟨"Unsupported schema format requested.", some p.schema_format⟩
        ∧ responseCode (serveDataViaHTTP ctx p) = 404) := by
  have hm : ¬(ctx.method ≠ "GET" ∧ ctx.method ≠ "HEAD") := by
    rcases hmethod with h | h <;> simp [h]
  refine ⟨?_, ?_, ?_, ?_⟩
  · intro hf
    simp [serveDataViaHTTP, hterm, hm, hsize, hschema, hf]
  · intro hf
    simp [serveDataViaHTTP, hterm, hm, hsize, hschema, hf]
  · intro text h1 h2 hlook
    simp [serveDataViaHTTP, hterm, hm, hsize, hschema, h1, h2, hlook]
  · intro h1 h2 hlook
    have hs : serveDataViaHTTP ctx p = ServeResponse.schemaNotFound
        ⟨"Unsupported schema format requested.", some p.schema_format⟩ := by
      simp [serveDataViaHTTP, hterm, hm, hsize, hschema, h1, h2, hlook]
    exact ⟨hs, by rw [hs]; rfl⟩

/-- Witness for `C8_schema`: a known language format returns its schema text. -/
theorem C8_schema_witness :
    serveDataViaHTTP ⟨[], 0, [("cpp", "cpp schema text")], 7, "E", "NS", "GET", 0, fun _ => 0⟩
      ⟨false, "", false, true, "cpp", 0, 0, 0, 0, false⟩ =
      ServeResponse.schemaLanguage "cpp schema text" :=
  ((C8_schema ⟨[], 0, [("cpp", "cpp schema text")], 7, "E", "NS", "GET", 0, fun _ => 0⟩
      ⟨false, "", false, true, "cpp", 0, 0, 0, 0, false⟩ rfl (Or.inl rfl) rfl rfl).2.2.1)
    "cpp schema text" (by decide) (by decide) (by decide)

end Http
